import Mathlib

/-!
Shallow embedding of `daily_update.py` (repository `SLAM-daily-update`).

Text is modelled as `List Char`.  Python regular-expression matching for the
five fixed README patterns is embedded directly as executable functions whose
behaviour mirrors CPython backtracking on exactly these patterns:

  `LABEL \s* [:：] \s* ([\s\S]+?) \s* (?=\n##|$)`          (four text fields)
  `LABEL \s* [:：] \s* (\d{4}) \s* (?=\n##|$)`             (the year field)

with `re.search` (leftmost match) and `re.IGNORECASE` (irrelevant here: no
pattern contains a cased letter).  `\s` is modelled on its ASCII part
(space, tab, newline, carriage return, vertical tab, form feed); `\d` on the
ASCII digits.
-/

namespace DailyUpdate

/-- Python `\s` (ASCII part): the six whitespace characters. -/
def pySpace (c : Char) : Bool :=
  c == ' ' || c == '\t' || c == '\n' || c == '\r' || c == '\x0b' || c == '\x0c'

/-- Python `str.strip()`: remove leading and trailing whitespace. -/
def pyStrip (l : List Char) : List Char :=
  (l.dropWhile pySpace).rdropWhile pySpace

/-- The trailing part `\s*(?=\n##|$)` of every field pattern, evaluated on the
suffix of the document following a candidate capture: some run of whitespace is
consumed, after which either the three characters `\n##` follow, or the
document ends.  (Python `$` also matches just before a final newline; that case
is subsumed because `\n` is whitespace and the empty suffix is accepted.) -/
def stopOK : List Char → Bool
  | [] => true
  | c :: t => (c == '\n' && t.take 2 == ['#', '#']) || (pySpace c && stopOK t)

/-- The lazy group `([\s\S]+?)` followed by `\s*(?=\n##|$)`: the shortest
non-empty prefix of `s` after which `stopOK` accepts the remainder. -/
def capMin : List Char → Option (List Char)
  | [] => none
  | c :: t => if stopOK t then some [c] else (capMin t).map (c :: ·)

/-- The greedy `\s*` in front of the capture group, with backtracking: the
longest whitespace consumption is tried first (CPython tries a greedy star
longest-first), and on failure one whitespace character is handed back to the
capture group at a time. -/
def capOuter : List Char → Option (List Char)
  | [] => none
  | c :: t =>
    if pySpace c then (capOuter t).orElse (fun _ => capMin (c :: t))
    else capMin (c :: t)

/-- `\s*[:：]` after the label, then the captured text: the greedy `\s*` before
the colon is deterministic (neither colon is whitespace, so backtracking cannot
produce a different split). -/
def afterLabel (s : List Char) : Option (List Char) :=
  match s.dropWhile pySpace with
  | [] => none
  | c :: t => if c == ':' || c == '：' then capOuter t else none

/-- `\s*[:：]\s*(\d{4})\s*(?=\n##|$)` after the year label: both `\s*` runs are
deterministic (a digit is not whitespace, so no backtracked position can start
the `\d{4}` group). -/
def afterLabelYear (s : List Char) : Option (List Char) :=
  match s.dropWhile pySpace with
  | [] => none
  | c :: t =>
    if c == ':' || c == '：' then
      let t1 := t.dropWhile pySpace
      if (t1.take 4).length == 4 && (t1.take 4).all Char.isDigit && stopOK (t1.drop 4)
      then some (t1.take 4) else none
    else none

/-- One match attempt at the current position: the literal label must be a
prefix here, then the field-specific continuation `F` runs on the rest. -/
def matchWith (label : List Char) (F : List Char → Option (List Char))
    (s : List Char) : Option (List Char) :=
  if label.isPrefixOf s then F (s.drop label.length) else none

/-- `re.search`: try a full match at every position, leftmost first. -/
def searchWith (label : List Char) (F : List Char → Option (List Char)) :
    List Char → Option (List Char)
  | [] => none
  | c :: t => (matchWith label F (c :: t)).orElse (fun _ => searchWith label F (c :: t).tail)

/-- `patterns["title"]`: label part of `## 📄 论文标题\s*[:：]\s*...`. -/
def titleLabel : List Char := "## 📄 论文标题".data

/-- `patterns["authors"]` label part. -/
def authorsLabel : List Char := "## 👥 作者".data

/-- `patterns["conf"]` label part. -/
def confLabel : List Char := "## 📅 会议/期刊".data

/-- `patterns["year"]` label part. -/
def yearLabel : List Char := "## 📆 发表年份".data

/-- `patterns["paper"]` label part. -/
def paperLabel : List Char := "## 📜 论文链接".data

/-- Sentinel `"未提供"` (field not provided). -/
def notProvided : List Char := "未提供".data

/-- Sentinel `"解析错误"` (parse error; unreachable in this pure model, kept
because `parse_readme` compares the extracted value against it). -/
def parseError : List Char := "解析错误".data

/-- Sentinel `"其他会议"` (other venue). -/
def otherConf : List Char := "其他会议".data

/-- `TARGET_CONF = ["icra", "iros", "ral", "tro"]`. -/
def TARGET_CONF : List (List Char) := ["icra".data, "iros".data, "ral".data, "tro".data]

/-- The slice of a raw search-result repository record that `daily_update.py`
reads.  `description` is `Option` because the JSON field may be `null`
(`repo_info.get("description") or ""`).  `daysSinceUpdate` abstracts
`(datetime.now() - updated_at).days`, read only when `ONLY_NEW_UPDATED`. -/
structure Repo where
  full_name : List Char
  html_url : List Char
  description : Option (List Char)
  daysSinceUpdate : Nat
deriving DecidableEq, Repr

/-- The record returned by `parse_readme` (the Python dict `result`). -/
structure PaperInfo where
  title : List Char
  authors : List Char
  conf : List Char
  year : List Char
  paper : List Char
deriving DecidableEq, Repr

/-- `match.group(1).strip() if match else "未提供"`. -/
def fieldOf (o : Option (List Char)) : List Char :=
  match o with
  | some v => pyStrip v
  | none => notProvided

/-- Python `needle in hay` on strings: `needle` occurs as a contiguous
substring of `hay`. -/
def pyIn (needle : List Char) : List Char → Bool
  | [] => needle.isEmpty
  | c :: t => needle.isPrefixOf (c :: t) || pyIn needle t

/-- The venue-inference fallback at the end of `parse_readme`: lower-case the
description (absent description is the empty string), take the first member of
`TARGET_CONF` occurring in it as a substring, upper-cased; otherwise the
generic sentinel. -/
def inferConf (repo : Repo) : List Char :=
  let descLower := ((repo.description.getD []).map Char.toLower)
  match TARGET_CONF.find? (fun c => pyIn c descLower) with
  | some c => c.map Char.toUpper
  | none => otherConf

/-- `parse_readme(readme_content, repo_info)`: run the five patterns
independently, then apply the venue fallback when the extracted venue equals a
sentinel value. -/
def parse_readme (readme : List Char) (repo : Repo) : PaperInfo :=
  let title := fieldOf (searchWith titleLabel afterLabel readme)
  let authors := fieldOf (searchWith authorsLabel afterLabel readme)
  let conf0 := fieldOf (searchWith confLabel afterLabel readme)
  let year := fieldOf (searchWith yearLabel afterLabelYear readme)
  let paper := fieldOf (searchWith paperLabel afterLabel readme)
  let conf := if conf0 = notProvided ∨ conf0 = parseError then inferConf repo else conf0
  ⟨title, authors, conf, year, paper⟩

/-- `TABLE_HEADER` (two fixed lines). -/
def TABLE_HEADER : List Char :=
  "| 标题 | 作者 | 会议/期刊 | 年份 | 代码仓库 | 论文链接 |\n|------|------|-----------|------|----------|----------|".data

/-- `TABLE_TEMPLATE.format(...)` as instantiated in `main`: one rendered table
row; both the link text and the link target of the paper column are
`paper_info["paper"]`. -/
def mkRow (p : PaperInfo) (fullName url : List Char) : List Char :=
  "| ".data ++ p.title ++ " | ".data ++ p.authors ++ " | ".data ++ p.conf
    ++ " | ".data ++ p.year ++ " | [".data ++ fullName ++ "](".data ++ url
    ++ ") | [".data ++ p.paper ++ "](".data ++ p.paper ++ ") |".data

/-- Python `str.find`: index of the leftmost occurrence, `none` for Python -1. -/
def strFind (needle : List Char) : List Char → Option Nat
  | [] => if needle.isEmpty then some 0 else none
  | c :: t => if needle.isPrefixOf (c :: t) then some 0 else (strFind needle t).map (· + 1)

/-- Python `str.find(needle, start)`. -/
def strFindFrom (hay needle : List Char) (start : Nat) : Option Nat :=
  (strFind needle (hay.drop start)).map (· + start)

/-- The literal `"\n## "` that `update_readme_table` searches for to find the
next top-level heading after the table header. -/
def nlHeading : List Char := "\n## ".data

/-- The pure content transformation of `update_readme_table`: `content` is the
current text of `README.md` (empty when the file is absent), `rows` the
rendered rows.  Success or failure of the surrounding file I/O is modelled
separately (`Env.renderOk`). -/
def update_readme_table (content : List Char) (rows : List (List Char)) : List Char :=
  match strFind TABLE_HEADER content with
  | none =>
    "# SLAM开源论文合集\n\n## 最新开源论文\n".data
      ++ TABLE_HEADER ++ '\n' :: List.intercalate ['\n'] rows
  | some s =>
    let e := match strFindFrom content nlHeading s with
             | none => content.length
             | some e => e
    content.take s ++ TABLE_HEADER ++ '\n' :: (List.intercalate ['\n'] rows ++ content.drop e)

/-- The text written by `save_processed_repos`:
`"\n".join(sorted(set(repos)))`, i.e. the newline-join of the
lexicographically sorted deduplication. -/
def save_processed_repos (repos : List (List Char)) : List Char :=
  List.intercalate ['\n'] (List.insertionSort (· ≤ ·) repos.dedup)

/-- The outcome of one HTTP GET as `github_api_request` observes it. -/
inductive HttpOutcome (α : Type)
  | success (body : α)
  | httpError (code : Nat) (rateLimitReset : Nat)
  | netError
deriving DecidableEq

/-- `github_api_request`: HTTP 403 raises the rate-limit exception carrying
the reset timestamp from the `X-RateLimit-Reset` header (`Except.error`);
HTTP 404, any other HTTP error and any network exception return `None`
(`Except.ok none`). -/
def github_api_request {α : Type} (o : HttpOutcome α) : Except Nat (Option α) :=
  match o with
  | .success a => .ok (some a)
  | .httpError code reset => if code = 403 then .error reset else .ok none
  | .netError => .ok none

/-- `search_slam_repos`, driven by the oracle list of per-page HTTP outcomes
(a page body is its `items` array; a response without `items` behaves like an
empty one).  Pages accumulate until a failed page, an empty page, or a page
shorter than `per_page = 100`; a 403 propagates the rate-limit exception. -/
def search_slam_repos (pages : List (HttpOutcome (List Repo))) : Except Nat (List Repo) :=
  match pages with
  | [] => .ok []
  | p :: rest =>
    match github_api_request p with
    | .error r => .error r
    | .ok none => .ok []
    | .ok (some items) =>
      if items.isEmpty then .ok []
      else if items.length < 100 then .ok items
      else (search_slam_repos rest).map (items ++ ·)

/-- `SKIP_EXISTED = True` (dedup enabled). -/
def SKIP_EXISTED : Bool := true

/-- `ONLY_NEW_UPDATED = False` (recency window disabled). -/
def ONLY_NEW_UPDATED : Bool := false

/-- The FILTER step of `main`: skip repositories already in the ledger (when
`SKIP_EXISTED`) and, when `ONLY_NEW_UPDATED`, repositories last updated more
than 7 days ago. -/
def filter_repos (processed : List (List Char)) (repos : List Repo) : List Repo :=
  repos.filter fun repo =>
    !(SKIP_EXISTED && processed.contains repo.full_name)
      && !(ONLY_NEW_UPDATED && decide (7 < repo.daysSinceUpdate))

/-- Fetch outcomes for one repository: the detail request (its payload,
`default_branch`, only parameterises the README request of the same
repository, so it is not recorded) and the README-content request (body: the
base64-decoded `content` field, or `none` when the response JSON has no
`content` key). -/
structure RepoFate where
  detail : HttpOutcome Unit
  readme : HttpOutcome (Option (List Char))

/-- One run's external world: the ledger as loaded (`load_processed_repos`
already converts a missing file or a read error into the empty list), the
search-page outcomes, the per-repository fetch outcomes keyed by `full_name`,
and whether the `README.md` write inside `update_readme_table` succeeds. -/
structure Env where
  ledger0 : List (List Char)
  pages : List (HttpOutcome (List Repo))
  fates : List Char → RepoFate
  renderOk : Bool

/-- The body of the PROCESS_EACH loop for one repository, inside its
`try/except`: `none` means the repository contributed no row and no
processed-this-run entry — by the explicit `continue` on an absent detail
result, or by the per-repository `except Exception` handler, which also
catches the 403 rate-limit exception raised here. -/
def processOne (env : Env) (repo : Repo) : Option (List Char × List Char) :=
  match github_api_request (env.fates repo.full_name).detail with
  | .error _ => none
  | .ok none => none
  | .ok (some _) =>
    match github_api_request (env.fates repo.full_name).readme with
    | .error _ => none
    | .ok none =>
      some (mkRow (parse_readme [] repo) repo.full_name repo.html_url, repo.full_name)
    | .ok (some body) =>
      let readme := match body with | none => [] | some txt => txt
      some (mkRow (parse_readme readme repo) repo.full_name repo.html_url, repo.full_name)

/-- `re.search(r"\d{4}", x)`: the first four consecutive ASCII digits. -/
def firstFour : List Char → Option (List Char)
  | [] => none
  | c :: t =>
    if ((c :: t).take 4).length == 4 && ((c :: t).take 4).all Char.isDigit
    then some ((c :: t).take 4) else firstFour t

/-- `int(...)` on the four captured digit characters. -/
def digitsToNat (l : List Char) : Nat :=
  l.foldl (fun a c => a * 10 + (c.toNat - 48)) 0

/-- The sort key of a row; meaningful only on rows where `firstFour` succeeds
(on any other row the Python key function raises `AttributeError`). -/
def rowKey (row : List Char) : Nat := ((firstFour row).map digitsToNat).getD 0

/-- Insert into a descending-by-key list, after existing rows of equal key:
folded over the rows this is a stable descending sort, agreeing with CPython
`list.sort(key=..., reverse=True)` (also a stable descending sort). -/
def insertRowDesc (x : List Char) : List (List Char) → List (List Char)
  | [] => [x]
  | y :: ys => if rowKey y < rowKey x then x :: y :: ys else y :: insertRowDesc x ys

/-- `table_rows.sort(key=lambda x: int(re.search(r"\d{4}", x).group()), reverse=True)`,
on rows where every key evaluation succeeds. -/
def sortRowsDesc (rows : List (List Char)) : List (List Char) :=
  rows.foldl (fun acc x => insertRowDesc x acc) []

/-- The exception escaping `main`, when one does. -/
inductive RunExc
  | rateLimited (reset : Nat)
  | sortKeyError
deriving DecidableEq, Repr

/-- Observable effects of one `main` run: the exception escaping it (if any),
the argument of the `save_processed_repos` call (`none` when it is never
reached) and the argument of the `update_readme_table` call (`none` when it is
never reached). -/
structure RunOutcome where
  raised : Option RunExc
  savedLedger : Option (List (List Char))
  renderedRows : Option (List (List Char))
deriving DecidableEq, Repr

/-- The list `table_rows` as of the end of the PROCESS_EACH loop (`[]` when an
earlier state already ended the run). -/
def runRows (env : Env) : List (List Char) :=
  match search_slam_repos env.pages with
  | .error _ => []
  | .ok allRepos =>
    if allRepos.isEmpty then []
    else
      let newRepos := filter_repos env.ledger0 allRepos
      if newRepos.isEmpty then []
      else ((newRepos.take 50).filterMap (processOne env)).map Prod.fst

/-- `main()`: load ledger, discover, filter, process each (at most 50), sort,
render, persist ledger.  The sort key raises on a row without four consecutive
digits; that exception (like the rate-limit one raised during discovery) is
not caught anywhere in `main`. -/
def main_run (env : Env) : RunOutcome :=
  match search_slam_repos env.pages with
  | .error r => ⟨some (.rateLimited r), none, none⟩
  | .ok allRepos =>
    if allRepos.isEmpty then ⟨none, none, none⟩
    else
      let newRepos := filter_repos env.ledger0 allRepos
      if newRepos.isEmpty then ⟨none, none, none⟩
      else
        let results := (newRepos.take 50).filterMap (processOne env)
        let rows := results.map Prod.fst
        if rows.isEmpty then ⟨none, none, none⟩
        else if rows.all (fun r => (firstFour r).isSome) then
          let sorted := sortRowsDesc rows
          if env.renderOk then ⟨none, some (env.ledger0 ++ results.map Prod.snd), some sorted⟩
          else ⟨none, none, some sorted⟩
        else ⟨some .sortKeyError, none, none⟩

/-- One labelled README section: the label, a colon, one space, the body,
then the rest of the document. -/
def mkSection (label body rest : List Char) : List Char :=
  label ++ ':' :: ' ' :: (body ++ rest)

/-- A README consisting of exactly the five labelled sections in their
standard order, one per line. -/
def mkReadme (b1 b2 b3 b4 b5 : List Char) : List Char :=
  mkSection titleLabel b1 ('\n' :: mkSection authorsLabel b2 ('\n' ::
    mkSection confLabel b3 ('\n' :: mkSection yearLabel b4 ('\n' ::
      mkSection paperLabel b5 []))))

/-- A plain-text section body: non-empty, neither starting nor ending in
whitespace (so the text between the label and the next heading is already
trimmed), and containing no `#` (so it contains no heading-like line and no
label occurrence). -/
def goodBody (b : List Char) : Prop :=
  b ≠ [] ∧ pySpace b.headI = false ∧ pySpace b.getLastI = false ∧ ∀ c ∈ b, c ≠ '#'

instance goodBodyDecidable (b : List Char) : Decidable (goodBody b) := by
  unfold goodBody
  infer_instance

/-- What follows a section body inside `mkReadme`: either the end of the
document, or a newline followed by the next label, which starts `##`. -/
def bodyCont (u : List Char) : Prop :=
  u = [] ∨ ∃ r, u = '\n' :: '#' :: '#' :: r

/-- A repository record with no digit anywhere (used as concrete input). -/
def cxRepo : Repo := ⟨"a/b".data, "u".data, none, 0⟩

/-- A repository record whose full name contains four consecutive digits. -/
def wRepo : Repo := ⟨"a2020/b".data, "u".data, none, 0⟩

/-- Environment: one discovered repository whose detail request answers 403. -/
def cxEnvC1 : Env := ⟨[], [.success [cxRepo]], fun _ => ⟨.httpError 403 99, .netError⟩, true⟩

/-- Environment: one digit-free repository processed with an empty README. -/
def cxEnvC2 : Env := ⟨[], [.success [cxRepo]], fun _ => ⟨.success (), .success none⟩, true⟩

/-- Environment: one repository processed successfully, renderer succeeds. -/
def wEnvGood : Env := ⟨[], [.success [wRepo]], fun _ => ⟨.success (), .success none⟩, true⟩

/-- Environment: non-empty starting ledger, one new repository processed. -/
def wEnvLedger : Env :=
  ⟨["x/y".data], [.success [wRepo]], fun _ => ⟨.success (), .success none⟩, true⟩

/-- Environment: one discovered repository whose detail fetch fails (absent
result), so the processing loop produces zero rows. -/
def wEnvNoRows : Env := ⟨[], [.success [cxRepo]], fun _ => ⟨.netError, .netError⟩, true⟩

/-- Document content before the managed table (concrete input). -/
def w7pre : List Char := "# intro\n".data

/-- Old table body between the header and the next heading (concrete input). -/
def w7mid : List Char := "\n| old |".data

/-- Content from the next top-level heading onward (concrete input). -/
def w7post : List Char := "Next Section\ntrailing".data

/-- Two fresh rendered rows (concrete input). -/
def w7rows : List (List Char) := ["| r1 |".data, "| r2 |".data]

end DailyUpdate

namespace DailyUpdate

/-! ### Supporting lemmas -/

/-- Membership in the saved (sorted, deduplicated) ledger content is
membership in the argument list. -/
lemma mem_sortedDedup (l : List (List Char)) (x : List Char) :
    x ∈ List.insertionSort (· ≤ ·) l.dedup ↔ x ∈ l := by
  rw [(List.perm_insertionSort _ _).mem_iff, List.mem_dedup]

/-- `search_slam_repos` propagates a 403 reached after any number of full
(length ≥ 100) pages. -/
lemma search_slam_repos_error (pre : List (HttpOutcome (List Repo))) (r : Nat)
    (rest : List (HttpOutcome (List Repo)))
    (hfull : ∀ p ∈ pre, ∃ items, p = .success items ∧ 100 ≤ items.length) :
    search_slam_repos (pre ++ .httpError 403 r :: rest) = .error r := by
  induction pre with
  | nil => simp [search_slam_repos, github_api_request]
  | cons p pre ih =>
    obtain ⟨items, rfl, hlen⟩ := hfull p (List.mem_cons_self _ _)
    have hne : ¬ items.isEmpty = true := by
      rw [List.isEmpty_iff]
      intro h
      subst h
      simp at hlen
    have hlt : ¬ items.length < 100 := by omega
    have ih2 := ih (fun q hq => hfull q (List.mem_cons_of_mem _ hq))
    simp [search_slam_repos, github_api_request, hne, hlt, ih2, Except.map]

/-- `find?` over a list split at its first satisfying element. -/
lemma find?_first_true {α : Type} (p : α → Bool) (l1 : List α) (c : α) (l2 : List α)
    (hc : p c = true) (h1 : ∀ x ∈ l1, p x = false) :
    (l1 ++ c :: l2).find? p = some c := by
  induction l1 with
  | nil => exact List.find?_cons_of_pos _ hc
  | cons x l1 ih =>
    rw [List.cons_append, List.find?_cons_of_neg _ (by simp [h1 x (List.mem_cons_self _ _)])]
    exact ih (fun x hx => h1 x (List.mem_cons_of_mem _ hx))

/-- The ledger list passed to `save_processed_repos`, when that call is
reached, extends the loaded ledger. -/
lemma main_run_saved_shape (env : Env) (l : List (List Char))
    (h : (main_run env).savedLedger = some l) :
    ∃ names, l = env.ledger0 ++ names := by
  rcases hs : search_slam_repos env.pages with r | allRepos <;>
    simp only [main_run, hs] at h
  · exact absurd h (by simp)
  · split_ifs at h
    all_goals simp_all
    exact ⟨_, h.symm⟩

/-! ### C1 -/

/-- C1 counterexample: the claim says an HTTP 403 answered to a request
issued from PROCESS_EACH aborts the whole run; in the code the per-repository
`except Exception` handler catches the rate-limit exception, and the run
finishes normally (no exception, nothing rendered, nothing saved). -/
theorem claim_C1_counterexample :
    (cxEnvC1.fates cxRepo.full_name).detail = .httpError 403 99 ∧
    main_run cxEnvC1 = ⟨none, none, none⟩ := by
  constructor
  · rfl
  · decide

/-- C1 (amended): an HTTP 403 on a search request — the DISCOVER state —
raises the rate-limit exception carrying the reset timestamp and aborts the
whole run (nothing rendered, nothing saved); a 403 answered during
PROCESS_EACH is instead caught by the per-repository handler and only skips
that repository. -/
theorem claim_C1_rate_limit_aborts (env : Env)
    (pre rest : List (HttpOutcome (List Repo))) (r : Nat)
    (hp : env.pages = pre ++ .httpError 403 r :: rest)
    (hfull : ∀ p ∈ pre, ∃ items, p = .success items ∧ 100 ≤ items.length) :
    main_run env = ⟨some (.rateLimited r), none, none⟩ := by
  unfold main_run
  rw [hp, search_slam_repos_error pre r rest hfull]

/-- C1 witness: a 403 on the first search page aborts the run. -/
theorem claim_C1_witness :
    main_run ⟨[], [.httpError 403 7], fun _ => ⟨.netError, .netError⟩, true⟩
      = ⟨some (.rateLimited 7), none, none⟩ :=
  claim_C1_rate_limit_aborts _ [] [] 7 rfl (by intro p hp; cases hp)

/-! ### C2 -/

/-- C2 counterexample: the claim says the SORT step never raises for any list
of rendered rows; a repository with digit-free name, URL and README yields a
row with no four consecutive digits, whose sort-key evaluation raises
(`re.search` returns `None` and `.group()` fails), and that exception escapes
`main`. -/
theorem claim_C2_counterexample :
    (main_run cxEnvC2).raised = some .sortKeyError := by decide

/-- C2 (amended): the only exceptions escaping `main` are the rate-limit
exception (DISCOVER state) and the sort-key failure; in particular, whenever
every generated row contains four consecutive digits, either the run raises
the rate-limit exception or no exception escapes at all. -/
theorem claim_C2_escape_taxonomy (env : Env)
    (h : ∀ row ∈ runRows env, (firstFour row).isSome = true) :
    (main_run env).raised = none ∨
      ∃ r, (main_run env).raised = some (.rateLimited r) := by
  rcases hs : search_slam_repos env.pages with r | allRepos
  · exact Or.inr ⟨r, by simp [main_run, hs]⟩
  · refine Or.inl ?_
    have hall : ∀ rows, runRows env = rows →
        rows.all (fun r => (firstFour r).isSome) = true :=
      fun rows hr => List.all_eq_true.mpr (fun x hx => h x (hr ▸ hx))
    simp only [main_run, hs]
    split_ifs with h1 h2 h3 h4 h5 <;> try rfl
    exfalso
    refine h4 (hall _ ?_)
    simp only [runRows, hs]
    rw [if_neg h1, if_neg h2]

/-- C2 witness: a run whose single row contains four consecutive digits
raises nothing. -/
theorem claim_C2_witness :
    (∀ row ∈ runRows wEnvGood, (firstFour row).isSome = true) ∧
    ((main_run wEnvGood).raised = none ∨
      ∃ r, (main_run wEnvGood).raised = some (.rateLimited r)) :=
  ⟨by decide, claim_C2_escape_taxonomy wEnvGood (by decide)⟩

/-! ### C3 -/

/-- C3: in every run that reaches the RENDER state (the renderer is invoked),
the ledger is saved exactly when the document render succeeds. -/
theorem claim_C3_render_gates_save (env : Env)
    (h : (main_run env).renderedRows.isSome = true) :
    ((main_run env).savedLedger.isSome = true ↔ env.renderOk = true) := by
  rcases hs : search_slam_repos env.pages with r | allRepos <;>
    simp only [main_run, hs] at h ⊢
  · simp at h
  · split_ifs at h ⊢ <;> simp_all

/-- C3 witness: a successful render run saves the ledger. -/
theorem claim_C3_witness :
    (main_run wEnvGood).renderedRows.isSome = true ∧
    ((main_run wEnvGood).savedLedger.isSome = true ↔ wEnvGood.renderOk = true) :=
  ⟨by decide, claim_C3_render_gates_save wEnvGood (by decide)⟩

/-! ### C4 -/

/-- C4: when the run saves the ledger, every identifier loaded at the start
is in the saved list, and in the sorted deduplicated content actually written
— the ledger never shrinks. -/
theorem claim_C4_ledger_monotone (env : Env) (l : List (List Char))
    (h : (main_run env).savedLedger = some l) :
    (∀ x ∈ env.ledger0, x ∈ l) ∧
    (∀ x ∈ env.ledger0, x ∈ List.insertionSort (· ≤ ·) l.dedup) := by
  obtain ⟨names, rfl⟩ := main_run_saved_shape env l h
  refine ⟨fun x hx => List.mem_append_left _ hx, fun x hx => ?_⟩
  rw [mem_sortedDedup]
  exact List.mem_append_left _ hx

/-- C4 witness: a run starting from ledger `["x/y"]` saves a superset. -/
theorem claim_C4_witness :
    (main_run wEnvLedger).savedLedger = some (wEnvLedger.ledger0 ++ ["a2020/b".data]) ∧
    (∀ x ∈ wEnvLedger.ledger0, x ∈ wEnvLedger.ledger0 ++ ["a2020/b".data]) :=
  ⟨by decide, (claim_C4_ledger_monotone wEnvLedger _ (by decide)).1⟩

/-! ### C8 -/

/-- C8: with dedup enabled, the FILTER step keeps no repository whose
`full_name` is in the loaded ledger, and only selects a subset of the
discovered list (the ledger itself, a pure value here, is not modified). -/
theorem claim_C8_filter_excludes_processed (processed : List (List Char))
    (repos : List Repo) (h : SKIP_EXISTED = true) :
    (∀ repo ∈ filter_repos processed repos, repo.full_name ∉ processed) ∧
    (filter_repos processed repos).Sublist repos := by
  refine ⟨fun repo hr hmem => ?_, List.filter_sublist _⟩
  have hc := (List.mem_filter.mp hr).2
  simp [h, hmem] at hc

/-- C8 witness: a ledger entry is excluded, a new repository kept. -/
theorem claim_C8_witness :
    SKIP_EXISTED = true ∧
    (∀ repo ∈ filter_repos ["a/b".data] [cxRepo, wRepo], repo.full_name ∉ ["a/b".data]) :=
  ⟨rfl, (claim_C8_filter_excludes_processed ["a/b".data] [cxRepo, wRepo] rfl).1⟩

/-! ### C9 -/

/-- C9: the ledger file content written by `save_processed_repos` depends
only on the underlying set of identifiers: two inputs with the same members
produce byte-identical content (sorted, deduplicated, newline-joined). -/
theorem claim_C9_save_idempotent (xs ys : List (List Char))
    (h : ∀ x, x ∈ xs ↔ x ∈ ys) :
    save_processed_repos xs = save_processed_repos ys := by
  unfold save_processed_repos
  congr 1
  have n1 : (List.insertionSort (· ≤ ·) xs.dedup).Nodup :=
    ((List.perm_insertionSort _ _).nodup_iff).mpr (List.nodup_dedup xs)
  have n2 : (List.insertionSort (· ≤ ·) ys.dedup).Nodup :=
    ((List.perm_insertionSort _ _).nodup_iff).mpr (List.nodup_dedup ys)
  apply List.eq_of_perm_of_sorted (r := (· ≤ ·))
  · rw [List.perm_ext_iff_of_nodup n1 n2]
    intro a
    rw [(List.perm_insertionSort _ _).mem_iff, (List.perm_insertionSort _ _).mem_iff,
      List.mem_dedup, List.mem_dedup]
    exact h a
  · exact List.sorted_insertionSort _ _
  · exact List.sorted_insertionSort _ _

/-- C9 witness: two presentations of the set of identifiers
`("a/b", "b/c")` produce identical file content. -/
theorem claim_C9_witness :
    (∀ x, x ∈ ["b/c".data, "a/b".data, "a/b".data] ↔ x ∈ ["a/b".data, "b/c".data]) ∧
    save_processed_repos ["b/c".data, "a/b".data, "a/b".data]
      = save_processed_repos ["a/b".data, "b/c".data] :=
  ⟨by intro x; simp [List.mem_cons]; tauto,
   claim_C9_save_idempotent _ _ (by intro x; simp [List.mem_cons]; tauto)⟩

/-! ### C10 -/

/-- C10: a run whose processing loop produces zero table rows ends without
invoking the renderer or the ledger save (and raises nothing), leaving both
files untouched. -/
theorem claim_C10_no_rows_no_writes (env : Env) (allRepos : List Repo)
    (hs : search_slam_repos env.pages = .ok allRepos)
    (h : runRows env = []) :
    main_run env = ⟨none, none, none⟩ := by
  simp only [main_run, runRows, hs] at h ⊢
  split_ifs at h ⊢ <;> simp_all

/-- C10 witness: every detail fetch absent, zero rows, no writes. -/
theorem claim_C10_witness :
    runRows wEnvNoRows = [] ∧ main_run wEnvNoRows = ⟨none, none, none⟩ :=
  ⟨by decide, claim_C10_no_rows_no_writes wEnvNoRows [cxRepo] rfl (by decide)⟩

/-! ### C7 -/

/-- C7: splicing new rows into an existing document that contains the table
header.  First part: when a next top-level heading (`"\n## "`) exists after
the header, everything before the header and everything from that heading on
is preserved byte-for-byte, and the region in between becomes the header
followed by the new rows.  Second part: when no such heading exists, the
suffix boundary is the end of the document.  The two location hypotheses say
exactly that `str.find` locates the header at the end of `pre` and the next
heading right after `mid` (so `pre` really is the content before the first
header occurrence, and `mid` the old table region). -/
theorem claim_C7_render_preserves_frame :
    (∀ (pre mid post : List Char) (rows : List (List Char)),
      strFind TABLE_HEADER (pre ++ TABLE_HEADER ++ mid ++ nlHeading ++ post)
          = some pre.length →
      strFindFrom (pre ++ TABLE_HEADER ++ mid ++ nlHeading ++ post) nlHeading pre.length
          = some (pre.length + TABLE_HEADER.length + mid.length) →
      update_readme_table (pre ++ TABLE_HEADER ++ mid ++ nlHeading ++ post) rows
          = pre ++ TABLE_HEADER
              ++ '\n' :: (List.intercalate ['\n'] rows ++ (nlHeading ++ post))) ∧
    (∀ (pre mid : List Char) (rows : List (List Char)),
      strFind TABLE_HEADER (pre ++ TABLE_HEADER ++ mid) = some pre.length →
      strFindFrom (pre ++ TABLE_HEADER ++ mid) nlHeading pre.length = none →
      update_readme_table (pre ++ TABLE_HEADER ++ mid) rows
          = pre ++ TABLE_HEADER ++ '\n' :: List.intercalate ['\n'] rows) := by
  constructor
  · intro pre mid post rows hpre hmid
    unfold update_readme_table
    simp only [hpre, hmid]
    have htake : List.take pre.length (pre ++ TABLE_HEADER ++ mid ++ nlHeading ++ post)
        = pre := by
      rw [show pre ++ TABLE_HEADER ++ mid ++ nlHeading ++ post
          = pre ++ (TABLE_HEADER ++ mid ++ nlHeading ++ post) by simp [List.append_assoc]]
      exact List.take_left _ _
    have hdrop : List.drop (pre.length + TABLE_HEADER.length + mid.length)
        (pre ++ TABLE_HEADER ++ mid ++ nlHeading ++ post) = nlHeading ++ post := by
      rw [show pre ++ TABLE_HEADER ++ mid ++ nlHeading ++ post
          = (pre ++ TABLE_HEADER ++ mid) ++ (nlHeading ++ post) by simp [List.append_assoc]]
      exact List.drop_left' (by simp only [List.length_append])
    rw [htake, hdrop]
  · intro pre mid rows hpre hmid
    unfold update_readme_table
    simp only [hpre, hmid]
    have htake : List.take pre.length (pre ++ TABLE_HEADER ++ mid) = pre := by
      rw [show pre ++ TABLE_HEADER ++ mid = pre ++ (TABLE_HEADER ++ mid) by
        simp [List.append_assoc]]
      exact List.take_left _ _
    rw [htake, List.drop_length]
    simp

set_option maxRecDepth 20000 in
/-- C7 witness: both parts at concrete documents. -/
theorem claim_C7_witness :
    (update_readme_table (w7pre ++ TABLE_HEADER ++ w7mid ++ nlHeading ++ w7post) w7rows
        = w7pre ++ TABLE_HEADER
            ++ '\n' :: (List.intercalate ['\n'] w7rows ++ (nlHeading ++ w7post))) ∧
    (update_readme_table (w7pre ++ TABLE_HEADER ++ w7mid) w7rows
        = w7pre ++ TABLE_HEADER ++ '\n' :: List.intercalate ['\n'] w7rows) :=
  ⟨claim_C7_render_preserves_frame.1 w7pre w7mid w7post w7rows (by decide) (by decide),
   claim_C7_render_preserves_frame.2 w7pre w7mid w7rows (by decide) (by decide)⟩

/-! ### C6 -/

/-- C6: when the venue pattern finds no match in the README, the venue field
is inferred from the lower-cased description (absent description = empty
string): the first member of the statically ordered `TARGET_CONF` list that
occurs in it as a substring, upper-cased; the generic sentinel when none
does. -/
theorem claim_C6_venue_inference (readme : List Char) (repo : Repo)
    (hm : searchWith confLabel afterLabel readme = none) :
    ((∀ c ∈ TARGET_CONF, pyIn c ((repo.description.getD []).map Char.toLower) = false) →
        (parse_readme readme repo).conf = otherConf) ∧
    (∀ l1 c l2, TARGET_CONF = l1 ++ c :: l2 →
        pyIn c ((repo.description.getD []).map Char.toLower) = true →
        (∀ c2 ∈ l1, pyIn c2 ((repo.description.getD []).map Char.toLower) = false) →
        (parse_readme readme repo).conf = c.map Char.toUpper) := by
  have hconf : (parse_readme readme repo).conf = inferConf repo := by
    simp [parse_readme, hm, fieldOf]
  constructor
  · intro hnone
    rw [hconf]
    simp only [inferConf]
    rw [List.find?_eq_none.mpr (fun c hc => by simp [hnone c hc])]
  · intro l1 c l2 hsplit hc h1
    rw [hconf]
    simp only [inferConf]
    rw [hsplit, find?_first_true _ l1 c l2 hc h1]

set_option maxRecDepth 4000 in
/-- C6 witness: a description containing "icra" infers venue "ICRA"; an
absent description infers the generic sentinel. -/
theorem claim_C6_witness :
    (parse_readme [] ⟨"a/b".data, "u".data, some "Best ICRA paper".data, 0⟩).conf
        = "icra".data.map Char.toUpper ∧
    (parse_readme [] cxRepo).conf = otherConf :=
  ⟨(claim_C6_venue_inference [] _ rfl).2 [] "icra".data ["iros".data, "ral".data, "tro".data]
      rfl (by decide) (by intro c2 hc2; cases hc2),
   (claim_C6_venue_inference [] cxRepo rfl).1 (by decide)⟩

/-! ### C5: behaviour of the pattern pieces on a well-formed section -/

/-- `pySpace ' '` evaluates to true. -/
lemma pySpace_space : pySpace ' ' = true := rfl

/-- `pySpace '\n'` evaluates to true. -/
lemma pySpace_nl : pySpace '\n' = true := rfl

/-- `pySpace ':'` evaluates to false. -/
lemma pySpace_colon : pySpace ':' = false := rfl

/-- An ASCII digit is not whitespace. -/
lemma pySpace_of_isDigit (c : Char) (h : c.isDigit = true) : pySpace c = false := by
  rw [Bool.eq_false_iff]
  intro hs
  simp only [pySpace, Bool.or_eq_true, beq_iff_eq] at hs
  rcases hs with ((((rfl | rfl) | rfl) | rfl) | rfl) | rfl <;> exact absurd h (by decide)

/-- The continuation after a full body is accepted by the trailing pattern
`\s*(?=\n##|$)`. -/
lemma stopOK_cont (u : List Char) (hu : bodyCont u) : stopOK u = true := by
  rcases hu with rfl | ⟨r, rfl⟩
  · rfl
  · simp [stopOK, List.take]

/-- Inside a body that ends with a non-whitespace character and contains no
`#`, the trailing pattern `\s*(?=\n##|$)` never accepts: walking over
whitespace can reach neither a `\n##` (no `#` in the body, and the body's last
character is not `\n` so no occurrence straddles into the continuation) nor
the document end (the walk stops at the body's last character). -/
lemma stopOK_body_false (b' : List Char) (e : Char) (u : List Char)
    (hb : ∀ c ∈ b' ++ [e], c ≠ '#') (he : pySpace e = false) :
    stopOK (b' ++ e :: u) = false := by
  induction b' with
  | nil =>
    have he' : (e == '\n') = false := by
      rw [beq_eq_false_iff_ne]
      rintro rfl
      exact absurd he (by decide)
    simp [stopOK, he, he']
  | cons c b'' ih =>
    have hb' : ∀ x ∈ b'' ++ [e], x ≠ '#' := fun x hx => hb x (List.mem_cons_of_mem _ hx)
    have h2 : ((b'' ++ e :: u).take 2 == ['#', '#']) = false := by
      rw [beq_eq_false_iff_ne]
      cases b'' with
      | nil =>
        intro h
        simp only [List.nil_append, List.take] at h
        exact hb e (by simp) (by
          have := congrArg (fun l => l.headI) h
          simpa using this)
      | cons x b3 =>
        intro h
        simp only [List.cons_append, List.take] at h
        exact hb' x (by simp) (by
          have := congrArg (fun l => l.headI) h
          simpa using this)
    simp only [List.cons_append, stopOK, List.append_eq, ih hb', h2,
      Bool.and_false, Bool.or_false]

/-- The lazy capture group stops exactly at the end of the body. -/
lemma capMin_body (b' : List Char) (e : Char) (u : List Char)
    (hu : bodyCont u) (hb : ∀ c ∈ b' ++ [e], c ≠ '#') (he : pySpace e = false) :
    capMin (b' ++ e :: u) = some (b' ++ [e]) := by
  induction b' with
  | nil => simp [capMin, stopOK_cont u hu]
  | cons c b'' ih =>
    have hb' : ∀ x ∈ b'' ++ [e], x ≠ '#' := fun x hx => hb x (List.mem_cons_of_mem _ hx)
    have hstop := stopOK_body_false b'' e u hb' he
    simp only [List.cons_append, capMin, List.append_eq, hstop]
    simp [ih hb']

/-- The greedy whitespace run before the capture consumes the single space of
the section and hands the body to the capture group. -/
lemma capOuter_body (b u : List Char)
    (hgb : goodBody b) (hu : bodyCont u) :
    capOuter (' ' :: (b ++ u)) = some b := by
  obtain ⟨hne, hhead, hlast, hhash⟩ := hgb
  rcases List.eq_nil_or_concat b with rfl | ⟨b', e, rfl⟩
  · exact absurd rfl hne
  rw [List.concat_eq_append] at hne hhead hlast hhash ⊢
  have he : pySpace e = false := by
    rw [List.getLastI_eq_getLast?, List.getLast?_concat] at hlast
    exact hlast
  have hcap : capMin (b' ++ [e] ++ u) = some (b' ++ [e]) := by
    rw [List.append_assoc, List.singleton_append]
    exact capMin_body b' e u hu hhash he
  have houter : capOuter (b' ++ [e] ++ u) = some (b' ++ [e]) := by
    obtain ⟨c, b2, hb2⟩ : ∃ c b2, b' ++ [e] = c :: b2 := by
      cases hb : b' ++ [e] with
      | nil => exact absurd hb (by simp)
      | cons c b2 => exact ⟨c, b2, rfl⟩
    have hc : pySpace c = false := by rw [hb2] at hhead; exact hhead
    rw [hb2] at hcap ⊢
    rw [List.cons_append] at hcap ⊢
    simp only [capOuter, List.append_eq, hc]
    simp [hcap]
  rw [List.append_assoc, List.singleton_append] at houter
  simp only [capOuter, pySpace_space, List.append_eq]
  simp [houter, Option.orElse]

/-- `afterLabel` on a well-formed section: colon, one space, the body, the
continuation; the capture is exactly the body. -/
lemma afterLabel_body (b u : List Char) (hgb : goodBody b) (hu : bodyCont u) :
    afterLabel (':' :: ' ' :: (b ++ u)) = some b := by
  simp only [afterLabel, List.dropWhile_cons, pySpace_colon]
  simp [capOuter_body b u hgb hu]

/-- `afterLabelYear` on a well-formed year section (exactly four digits). -/
lemma afterLabelYear_body (b u : List Char)
    (hlen : b.length = 4) (hdig : b.all Char.isDigit = true) (hu : bodyCont u) :
    afterLabelYear (':' :: ' ' :: (b ++ u)) = some b := by
  obtain ⟨c, t, rfl⟩ : ∃ c t, b = c :: t := by
    cases b with
    | nil => simp at hlen
    | cons c t => exact ⟨c, t, rfl⟩
  have hc : pySpace c = false :=
    pySpace_of_isDigit c (by have := List.all_eq_true.mp hdig c (by simp); exact this)
  have hdw : (((c :: t) ++ u).dropWhile pySpace) = (c :: t) ++ u := by
    simp [List.dropWhile_cons, hc]
  have htake : ((c :: t) ++ u).take 4 = c :: t := by
    rw [List.take_append_of_le_length (by omega)]
    exact List.take_of_length_le (by omega)
  have hdrop : ((c :: t) ++ u).drop 4 = u := List.drop_left' hlen
  have hdigAll : ∀ x ∈ c :: t, x.isDigit = true := List.all_eq_true.mp hdig
  rw [List.cons_append] at htake hdrop
  simp only [afterLabelYear, List.dropWhile_cons, pySpace_colon, pySpace_space,
    List.append_eq]
  simp [List.dropWhile_cons, pySpace_space, hc, htake, hdrop, hlen, hdigAll,
    stopOK_cont u hu]
  exact fun x hx => hdigAll x (List.mem_cons_of_mem _ hx)

/-! ### C5: the scan (`re.search`) on a well-formed five-section README -/

/-- A failed match attempt at the current position moves the scan one
character on. -/
lemma searchWith_skip_one (label : List Char) (F : List Char → Option (List Char))
    (x : Char) (t : List Char) (h : label.isPrefixOf (x :: t) = false) :
    searchWith label F (x :: t) = searchWith label F t := by
  simp [searchWith, matchWith, h, Option.orElse]

/-- A label never matches at a position whose first character differs from
the label's first character. -/
lemma isPrefixOf_false_of_head (label : List Char) (x : Char) (t : List Char)
    (c : Char) (l2 : List Char) (hl : label = c :: l2) (hne : c ≠ x) :
    label.isPrefixOf (x :: t) = false := by
  subst hl
  simp [List.isPrefixOf, hne]

/-- A label starting `##` never matches where the second character is not
`#`. -/
lemma isPrefixOf_false_hh (l2 t : List Char) (x : Char) (hx : x ≠ '#') :
    ('#' :: '#' :: l2).isPrefixOf ('#' :: x :: t) = false := by
  simp [List.isPrefixOf, Ne.symm hx]

/-- The scan passes over any segment containing no `#` without matching a
label that starts with `#`. -/
lemma searchWith_skip_seg (label : List Char) (F : List Char → Option (List Char))
    (l2 : List Char) (hl : label = '#' :: l2) :
    ∀ seg y, (∀ x ∈ seg, x ≠ '#') → searchWith label F (seg ++ y) = searchWith label F y := by
  intro seg
  induction seg with
  | nil => simp
  | cons x s ih =>
    intro y hx
    rw [List.cons_append,
      searchWith_skip_one label F x (s ++ y)
        (isPrefixOf_false_of_head label x _ '#' l2 hl
          (fun h => hx x (by simp) h.symm)),
      ih y (fun z hz => hx z (List.mem_cons_of_mem _ hz))]

/-- `isPrefixOf` forces equal `take n` prefixes. -/
lemma isPrefixOf_false_of_take (label target : List Char) (n : Nat)
    (hn : n ≤ label.length) (hm : n ≤ target.length)
    (h : label.take n ≠ target.take n) : label.isPrefixOf target = false := by
  rw [Bool.eq_false_iff]
  intro hp
  obtain ⟨t, rfl⟩ := List.isPrefixOf_iff_prefix.mp hp
  exact h (by rw [List.take_append_of_le_length hn])

/-- The scan passes over a whole well-formed section whose label differs from
the searched label (in the first four characters). -/
lemma searchWith_skip_section (label secLabel : List Char)
    (F : List Char → Option (List Char)) (b y : List Char)
    (l2 : List Char) (hl : label = '#' :: '#' :: l2)
    (K : List Char) (hK : secLabel = '#' :: '#' :: ' ' :: K) (hKne : K ≠ [])
    (hKhash : ∀ x ∈ K, x ≠ '#')
    (hne : label.take 4 ≠ secLabel.take 4) (hlen : 4 ≤ label.length)
    (hb : ∀ x ∈ b, x ≠ '#') :
    searchWith label F (mkSection secLabel b ('\n' :: y)) = searchWith label F y := by
  obtain ⟨k0, K', rfl⟩ : ∃ k0 K', K = k0 :: K' := by
    cases K with
    | nil => exact absurd rfl hKne
    | cons k0 K' => exact ⟨k0, K', rfl⟩
  subst hK
  simp only [mkSection, List.cons_append]
  have h0 : label.isPrefixOf
      ('#' :: '#' :: ' ' :: k0 :: (K' ++ ':' :: ' ' :: (b ++ '\n' :: y))) = false := by
    refine isPrefixOf_false_of_take _ _ 4 hlen (by simp) ?_
    intro hcontra
    apply hne
    rw [hcontra]
    simp [List.take]
  rw [searchWith_skip_one _ _ _ _ h0,
    searchWith_skip_one _ _ _ _ (by rw [hl]; exact isPrefixOf_false_hh l2 _ ' ' (by decide)),
    searchWith_skip_one _ _ _ _
      (isPrefixOf_false_of_head label ' ' _ '#' ('#' :: l2) hl (by decide))]
  rw [show k0 :: (K' ++ ':' :: ' ' :: (b ++ '\n' :: y))
      = (k0 :: K') ++ (':' :: ' ' :: (b ++ '\n' :: y)) from rfl]
  rw [searchWith_skip_seg label F ('#' :: l2) hl _ _ hKhash]
  rw [searchWith_skip_one _ _ _ _
      (isPrefixOf_false_of_head label ':' _ '#' ('#' :: l2) hl (by decide)),
    searchWith_skip_one _ _ _ _
      (isPrefixOf_false_of_head label ' ' _ '#' ('#' :: l2) hl (by decide))]
  rw [searchWith_skip_seg label F ('#' :: l2) hl b ('\n' :: y) hb]
  rw [searchWith_skip_one _ _ _ _
      (isPrefixOf_false_of_head label '\n' _ '#' ('#' :: l2) hl (by decide))]

/-- The scan succeeds at the section that carries the searched label. -/
lemma searchWith_hit (label : List Char) (F : List Char → Option (List Char))
    (x : List Char) (v : List Char) (hne : label ≠ []) (hF : F x = some v) :
    searchWith label F (label ++ x) = some v := by
  have hm : matchWith label F (label ++ x) = some v := by
    unfold matchWith
    rw [if_pos (List.isPrefixOf_iff_prefix.mpr ⟨x, rfl⟩), List.drop_left, hF]
  obtain ⟨c, t, rfl⟩ : ∃ c t, label = c :: t := by
    cases label with
    | nil => exact absurd rfl hne
    | cons c t => exact ⟨c, t, rfl⟩
  rw [List.cons_append] at hm ⊢
  simp [searchWith, hm, Option.orElse]

/-- The scan on a whole section whose label is the searched one returns the
value of the continuation on the section remainder. -/
lemma searchWith_hit_section (label : List Char) (F : List Char → Option (List Char))
    (b rest : List Char) (v : List Char) (hne : label ≠ [])
    (hF : F (':' :: ' ' :: (b ++ rest)) = some v) :
    searchWith label F (mkSection label b rest) = some v := by
  unfold mkSection
  exact searchWith_hit label F _ v hne hF

/-! ### C5: assembly -/

/-- `titleLabel` decomposed. -/
lemma titleLabel_shape : titleLabel = '#' :: '#' :: ' ' :: "📄 论文标题".data := by decide

/-- `authorsLabel` decomposed. -/
lemma authorsLabel_shape : authorsLabel = '#' :: '#' :: ' ' :: "👥 作者".data := by decide

/-- `confLabel` decomposed. -/
lemma confLabel_shape : confLabel = '#' :: '#' :: ' ' :: "📅 会议/期刊".data := by decide

/-- `yearLabel` decomposed. -/
lemma yearLabel_shape : yearLabel = '#' :: '#' :: ' ' :: "📆 发表年份".data := by decide

/-- `paperLabel` decomposed. -/
lemma paperLabel_shape : paperLabel = '#' :: '#' :: ' ' :: "📜 论文链接".data := by decide

/-- The continuation after a body followed by a further section starts
`\n##`. -/
lemma bodyCont_section (secLabel b rest : List Char) (K : List Char)
    (hK : secLabel = '#' :: '#' :: ' ' :: K) :
    bodyCont ('\n' :: mkSection secLabel b rest) := by
  right
  refine ⟨' ' :: (K ++ ':' :: ' ' :: (b ++ rest)), ?_⟩
  subst hK
  simp [mkSection]

/-- `str.strip` is the identity on text that neither starts nor ends with
whitespace. -/
lemma pyStrip_eq_self (b : List Char) (hne : b ≠ [])
    (hh : pySpace b.headI = false) (hl : pySpace b.getLastI = false) :
    pyStrip b = b := by
  rcases List.eq_nil_or_concat b with rfl | ⟨b', e, rfl⟩
  · exact absurd rfl hne
  rw [List.concat_eq_append] at hne hh hl ⊢
  have he : pySpace e = false := by
    rw [List.getLastI_eq_getLast?, List.getLast?_concat] at hl
    exact hl
  unfold pyStrip
  have hdw : (b' ++ [e]).dropWhile pySpace = b' ++ [e] := by
    cases b' with
    | nil => simp [List.dropWhile_cons, he]
    | cons c b2 =>
      simp only [List.cons_append, List.headI] at hh
      simp [List.dropWhile_cons, hh]
  rw [hdw, List.rdropWhile_concat_neg pySpace b' e (by simp [he])]

/-- `str.strip` is the identity on a four-digit year. -/
lemma pyStrip_digits (b : List Char) (hlen : b.length = 4)
    (hdig : b.all Char.isDigit = true) : pyStrip b = b := by
  have hne : b ≠ [] := by intro h; rw [h] at hlen; simp at hlen
  refine pyStrip_eq_self b hne ?_ ?_
  · obtain ⟨c, t, rfl⟩ : ∃ c t, b = c :: t := by
      cases b with
      | nil => exact absurd rfl hne
      | cons c t => exact ⟨c, t, rfl⟩
    exact pySpace_of_isDigit c (List.all_eq_true.mp hdig c (by simp))
  · rcases List.eq_nil_or_concat b with h | ⟨b', e, rfl⟩
    · exact absurd h hne
    rw [List.concat_eq_append] at hdig ⊢
    rw [List.getLastI_eq_getLast?, List.getLast?_concat]
    exact pySpace_of_isDigit e (List.all_eq_true.mp hdig e (by simp))

/-- C5 counterexample: a README whose five labelled sections are all present
and whose venue section body is literally the sentinel string `未提供`.  The
venue pattern does match and captures that text (first conjunct), but
`parse_readme` compares the extracted value against the sentinel and replaces
it by the fallback inference (`其他会议` for an absent description), so the
returned venue is not the text between the label and the next heading. -/
theorem claim_C5_counterexample :
    searchWith confLabel afterLabel
        (mkReadme "A".data "B".data "未提供".data "2023".data "L".data)
      = some "未提供".data ∧
    (parse_readme (mkReadme "A".data "B".data "未提供".data "2023".data "L".data)
        cxRepo).conf = otherConf ∧
    otherConf ≠ "未提供".data := by
  refine ⟨by decide, by decide, by decide⟩

/-- C5 (amended): for every README consisting of the five labelled sections
in order whose bodies are plain trimmed text (non-empty, no surrounding
whitespace, no `#`), with the year body exactly four digits, the extractor
returns every body exactly (so extraction of each field is independent of the
others), provided the venue body is not literally one of the sentinel strings
(in which case the fallback of C6 replaces it). -/
theorem claim_C5_extractor_exact (b1 b2 b3 b4 b5 : List Char) (repo : Repo)
    (h1 : goodBody b1) (h2 : goodBody b2) (h3 : goodBody b3)
    (h4 : b4.length = 4 ∧ b4.all Char.isDigit = true)
    (h5 : goodBody b5)
    (hs : b3 ≠ notProvided ∧ b3 ≠ parseError) :
    parse_readme (mkReadme b1 b2 b3 b4 b5) repo = ⟨b1, b2, b3, b4, b5⟩ := by
  have hb4hash : ∀ x ∈ b4, x ≠ '#' := by
    intro x hx h
    subst h
    exact absurd (List.all_eq_true.mp h4.2 _ hx) (by decide)
  have ht1 : searchWith titleLabel afterLabel (mkReadme b1 b2 b3 b4 b5) = some b1 := by
    unfold mkReadme
    exact searchWith_hit_section titleLabel afterLabel b1 _ b1 (by decide)
      (afterLabel_body b1 _ h1 (bodyCont_section authorsLabel b2 _ _ authorsLabel_shape))
  have ht2 : searchWith authorsLabel afterLabel (mkReadme b1 b2 b3 b4 b5) = some b2 := by
    unfold mkReadme
    rw [searchWith_skip_section authorsLabel titleLabel afterLabel b1 _
      (' ' :: "👥 作者".data) (by decide) "📄 论文标题".data titleLabel_shape
      (by decide) (by decide) (by decide) (by decide) h1.2.2.2]
    exact searchWith_hit_section authorsLabel afterLabel b2 _ b2 (by decide)
      (afterLabel_body b2 _ h2 (bodyCont_section confLabel b3 _ _ confLabel_shape))
  have ht3 : searchWith confLabel afterLabel (mkReadme b1 b2 b3 b4 b5) = some b3 := by
    unfold mkReadme
    rw [searchWith_skip_section confLabel titleLabel afterLabel b1 _
      (' ' :: "📅 会议/期刊".data) (by decide) "📄 论文标题".data titleLabel_shape
      (by decide) (by decide) (by decide) (by decide) h1.2.2.2]
    rw [searchWith_skip_section confLabel authorsLabel afterLabel b2 _
      (' ' :: "📅 会议/期刊".data) (by decide) "👥 作者".data authorsLabel_shape
      (by decide) (by decide) (by decide) (by decide) h2.2.2.2]
    exact searchWith_hit_section confLabel afterLabel b3 _ b3 (by decide)
      (afterLabel_body b3 _ h3 (bodyCont_section yearLabel b4 _ _ yearLabel_shape))
  have ht4 : searchWith yearLabel afterLabelYear (mkReadme b1 b2 b3 b4 b5) = some b4 := by
    unfold mkReadme
    rw [searchWith_skip_section yearLabel titleLabel afterLabelYear b1 _
      (' ' :: "📆 发表年份".data) (by decide) "📄 论文标题".data titleLabel_shape
      (by decide) (by decide) (by decide) (by decide) h1.2.2.2]
    rw [searchWith_skip_section yearLabel authorsLabel afterLabelYear b2 _
      (' ' :: "📆 发表年份".data) (by decide) "👥 作者".data authorsLabel_shape
      (by decide) (by decide) (by decide) (by decide) h2.2.2.2]
    rw [searchWith_skip_section yearLabel confLabel afterLabelYear b3 _
      (' ' :: "📆 发表年份".data) (by decide) "📅 会议/期刊".data confLabel_shape
      (by decide) (by decide) (by decide) (by decide) h3.2.2.2]
    exact searchWith_hit_section yearLabel afterLabelYear b4 _ b4 (by decide)
      (afterLabelYear_body b4 _ h4.1 h4.2
        (bodyCont_section paperLabel b5 _ _ paperLabel_shape))
  have ht5 : searchWith paperLabel afterLabel (mkReadme b1 b2 b3 b4 b5) = some b5 := by
    unfold mkReadme
    rw [searchWith_skip_section paperLabel titleLabel afterLabel b1 _
      (' ' :: "📜 论文链接".data) (by decide) "📄 论文标题".data titleLabel_shape
      (by decide) (by decide) (by decide) (by decide) h1.2.2.2]
    rw [searchWith_skip_section paperLabel authorsLabel afterLabel b2 _
      (' ' :: "📜 论文链接".data) (by decide) "👥 作者".data authorsLabel_shape
      (by decide) (by decide) (by decide) (by decide) h2.2.2.2]
    rw [searchWith_skip_section paperLabel confLabel afterLabel b3 _
      (' ' :: "📜 论文链接".data) (by decide) "📅 会议/期刊".data confLabel_shape
      (by decide) (by decide) (by decide) (by decide) h3.2.2.2]
    rw [searchWith_skip_section paperLabel yearLabel afterLabel b4 _
      (' ' :: "📜 论文链接".data) (by decide) "📆 发表年份".data yearLabel_shape
      (by decide) (by decide) (by decide) (by decide) hb4hash]
    exact searchWith_hit_section paperLabel afterLabel b5 [] b5 (by decide)
      (afterLabel_body b5 [] h5 (Or.inl rfl))
  have hs1 := pyStrip_eq_self b1 h1.1 h1.2.1 h1.2.2.1
  have hs2 := pyStrip_eq_self b2 h2.1 h2.2.1 h2.2.2.1
  have hs3 := pyStrip_eq_self b3 h3.1 h3.2.1 h3.2.2.1
  have hs4 := pyStrip_digits b4 h4.1 h4.2
  have hs5 := pyStrip_eq_self b5 h5.1 h5.2.1 h5.2.2.1
  simp only [parse_readme, ht1, ht2, ht3, ht4, ht5, fieldOf, hs1, hs2, hs3, hs4, hs5]
  rw [if_neg (not_or.mpr hs)]

/-- C5 witness: a concrete five-section README extracted exactly. -/
theorem claim_C5_witness :
    parse_readme (mkReadme "My Title".data "A, B".data "ICRA".data "2023".data
        "http://x".data) cxRepo
      = ⟨"My Title".data, "A, B".data, "ICRA".data, "2023".data, "http://x".data⟩ :=
  claim_C5_extractor_exact _ _ _ _ _ cxRepo (by decide) (by decide) (by decide)
    (by decide) (by decide) (by decide)

end DailyUpdate
